import Mathlib

/-!
Verification of the git-lineage code-symbol extraction, symbol store and
retrieval layer.

Each definition below is a shallow embedding of a function of the repository:

* `parse_python_file`   — backend/aws_bedrock_api/lambda_function/lambda_function.py,
  `parse_python_file` (the same `ast.walk` collection loop as
  backend/processors/code_parser.py `parse_python_with_ast`; the latter adds
  fields — code snippet, docstring — that none of the verified claims mention).
* `parse_symbols` / `tsCollect` — backend/database/parser.py (tree-sitter based).
* `insert_commit`, `insert_file`, `insert_symbol`, `get_file_statistics` —
  the SQLite store of lambda_function.py (backend/database/index_repo.py holds
  the same INSERT OR IGNORE statements).
* `faiss_search` / `query_index` — backend/retrieval/faiss_indexer.py.
* `TestQuery.ask_claude`, `UnifiedQuery.ask_claude` — backend/test_query.py and
  backend/unified_query.py.
* `create_embedding_request` — backend/utils.py `create_embedding`.
* `search_all` — backend/test_query.py.

External collaborators (the CPython `ast` module, tree-sitter, FAISS, AWS
Bedrock, OpenSearch) appear as explicit parameters or as faithfully modelled
value-level behaviour; floating-point vector arithmetic is modelled over `Int`,
which preserves the selection/ordering semantics the claims are about.
-/

/-- One extracted symbol record: `(kind, name, start_line, end_line)`,
the tuple shape returned by the lambda's `parse_python_file` and stored by
`insert_symbol`. Lines are 1-based and inclusive. -/
structure SymbolTuple where
  kind : String
  name : String
  startLine : Nat
  endLine : Nat
deriving Repr, DecidableEq

/-! ## CPython `ast` model

`ast.parse` (an external collaborator) yields a tree of statements.  Only the
shape the extractors inspect is modelled: `FunctionDef` and `ClassDef` nodes
carry `name`, `lineno`, `end_lineno` (optional in CPython) and
`decorator_list` (here just each decorator's `lineno`); every other statement
kind is `other`.  Each node carries the list of statements nested inside it
(`ast.walk` reaches nested definitions through it). -/

inductive PyStmt where
  | funcDef (name : String) (lineno : Nat) (endLineno : Option Nat)
      (decoratorLines : List Nat) (body : List PyStmt)
  | classDef (name : String) (lineno : Nat) (endLineno : Option Nat)
      (decoratorLines : List Nat) (body : List PyStmt)
  | other (body : List PyStmt)
deriving Repr

mutual
/-- Size of a statement node (for termination of the breadth-first walk). -/
def sizeS : PyStmt → Nat
  | .funcDef _ _ _ _ b => 1 + sizeL b
  | .classDef _ _ _ _ b => 1 + sizeL b
  | .other b => 1 + sizeL b
/-- Total size of a list of statement nodes. -/
def sizeL : List PyStmt → Nat
  | [] => 0
  | s :: ss => sizeS s + sizeL ss
end

/-- The nested statements of a node, as `ast.iter_child_nodes` exposes them. -/
def PyStmt.children : PyStmt → List PyStmt
  | .funcDef _ _ _ _ b => b
  | .classDef _ _ _ _ b => b
  | .other b => b

theorem sizeL_append (a b : List PyStmt) : sizeL (a ++ b) = sizeL a + sizeL b := by
  induction a with
  | nil => simp [sizeL]
  | cons s ss ih => simp [sizeL, ih]; ring

theorem sizeL_children_lt (t : PyStmt) : sizeL t.children < sizeS t := by
  cases t <;> simp [PyStmt.children, sizeS]

theorem sizeL_step (t : PyStmt) (ts : List PyStmt) :
    sizeL (ts ++ t.children) < sizeL (t :: ts) := by
  have h := sizeL_children_lt t
  simp [sizeL, sizeL_append]
  omega

/-- `ast.walk`: breadth-first traversal of the tree — each node is yielded
exactly once, then its children are appended to the queue. -/
def walkBFS : List PyStmt → List PyStmt
  | [] => []
  | t :: ts => t :: walkBFS (ts ++ t.children)
termination_by l => sizeL l
decreasing_by
  exact sizeL_step _ _

theorem walkBFS_nil : walkBFS [] = [] := by rw [walkBFS]

theorem walkBFS_cons (t : PyStmt) (ts : List PyStmt) :
    walkBFS (t :: ts) = t :: walkBFS (ts ++ t.children) := by rw [walkBFS]

mutual
/-- Pre-order listing of a statement node and everything nested in it. -/
def preS : PyStmt → List PyStmt
  | .funcDef n a e d b => .funcDef n a e d b :: preL b
  | .classDef n a e d b => .classDef n a e d b :: preL b
  | .other b => .other b :: preL b
/-- Pre-order listing of a forest of statement nodes. -/
def preL : List PyStmt → List PyStmt
  | [] => []
  | s :: ss => preS s ++ preL ss
end

/-- The record the `ast.walk` loop appends for a node:
`('function', node.name, node.lineno, node.end_lineno or node.lineno)` for a
`FunctionDef`, the same with `'class'` for a `ClassDef`, nothing otherwise
(lambda_function.py lines 136-143).  `end_lineno or lineno` is Python's
falsy-fallback: `None` end positions fall back to `lineno`. -/
def toSymbolTuple : PyStmt → Option SymbolTuple
  | .funcDef n l e _ _ => some ⟨"function", n, l, e.getD l⟩
  | .classDef n l e _ _ => some ⟨"class", n, l, e.getD l⟩
  | .other _ => none

/-- `parse_python_file(file_path, content)` of lambda_function.py (and the
collection loop of `parse_python_with_ast` of code_parser.py):
`ast.parse` the content — a `SyntaxError` (modelled by the external parser
`P` returning `none`) is caught and yields `[]` — then collect one tuple per
`FunctionDef`/`ClassDef` met by `ast.walk`. -/
def parse_python_file (P : String → Option (List PyStmt)) (content : String) :
    List SymbolTuple :=
  match P content with
  | none => []
  | some body => (walkBFS body).filterMap toSymbolTuple

/-- The per-file loop of a run (lambda_function.py `process_repository` file
loop, code_parser.py `parse_repository_from_url`): each file of the batch is
parsed in turn; a file's parse failure yields `[]` for that file only. -/
def parse_batch (P : String → Option (List PyStmt)) :
    List (String × String) → List (String × List SymbolTuple)
  | [] => []
  | (p, c) :: rest => (p, parse_python_file P c) :: parse_batch P rest

mutual
/-- Well-formedness the CPython parser guarantees for a tree it produced from
a file of `numLines` lines: every definition's resolved span satisfies
`1 ≤ lineno ≤ end ≤ numLines`. -/
def wfS (numLines : Nat) : PyStmt → Bool
  | .funcDef _ l e _ b =>
      decide (1 ≤ l ∧ l ≤ e.getD l ∧ e.getD l ≤ numLines) && wfL numLines b
  | .classDef _ l e _ b =>
      decide (1 ≤ l ∧ l ≤ e.getD l ∧ e.getD l ≤ numLines) && wfL numLines b
  | .other b => wfL numLines b
/-- `wfS` over a forest. -/
def wfL (numLines : Nat) : List PyStmt → Bool
  | [] => true
  | s :: ss => wfS numLines s && wfL numLines ss
end

/-- All records of `rs` have a 1-based span inside a file of `numLines` lines,
with `endLine ≥ startLine`. -/
def boundsOK (numLines : Nat) (rs : List SymbolTuple) : Bool :=
  rs.all fun r => decide (1 ≤ r.startLine ∧ r.startLine ≤ r.endLine ∧ r.endLine ≤ numLines)

/-! ## Tree-sitter model (backend/database/parser.py)

`parse_symbols` parses with the tree-sitter Python grammar and runs one query
holding four patterns against the whole tree.  A tree-sitter pattern matches
at every node of the tree, so the plain `(function_definition …)` pattern also
matches the definition nested inside a `decorated_definition`, which the
`(decorated_definition … definition: (function_definition …))` pattern matches
a second time.  `decorated_definition` always wraps its definition directly,
so the model flattens the pair into one constructor carrying the first
decorator's row (the decorated node's start), the remaining decorators' rows
and the inner definition's own rows.  Rows are tree-sitter's 0-based
coordinates; `lines` converts them by `+ 1` (parser.py lines 33-35). -/

inductive TSNode where
  | funcDef (name : String) (startRow endRow : Nat) (body : List TSNode)
  | classDef (name : String) (startRow endRow : Nat) (body : List TSNode)
  | decoratedFunc (firstDecRow : Nat) (moreDecRows : List Nat) (name : String)
      (startRow endRow : Nat) (body : List TSNode)
  | decoratedClass (firstDecRow : Nat) (moreDecRows : List Nat) (name : String)
      (startRow endRow : Nat) (body : List TSNode)
  | other (body : List TSNode)
deriving Repr

mutual
/-- The records `parse_symbols` appends for the captures rooted in one node.
For a plain definition the single `@fname`/`@cname` capture fires;
`span_node_for_identifier` climbs to the definition node (its parent is not a
`decorated_definition`) so the span is the definition's own.  For a decorated
definition both its pattern's capture and the plain pattern's capture fire on
the same `name:` identifier, and for both `span_node_for_identifier` expands
to the `decorated_definition` parent, whose span runs from the first
decorator's row to the definition's end row (parser.py lines 44-48, 51-74). -/
def tsCollect : TSNode → List SymbolTuple
  | .funcDef n s e b => ⟨"function", n, s + 1, e + 1⟩ :: tsCollectList b
  | .classDef n s e b => ⟨"class", n, s + 1, e + 1⟩ :: tsCollectList b
  | .decoratedFunc fr _ n _ e b =>
      ⟨"function", n, fr + 1, e + 1⟩ :: ⟨"function", n, fr + 1, e + 1⟩ :: tsCollectList b
  | .decoratedClass fr _ n _ e b =>
      ⟨"class", n, fr + 1, e + 1⟩ :: ⟨"class", n, fr + 1, e + 1⟩ :: tsCollectList b
  | .other b => tsCollectList b
/-- `tsCollect` over the children of a node. -/
def tsCollectList : List TSNode → List SymbolTuple
  | [] => []
  | c :: cs => tsCollect c ++ tsCollectList cs
end

/-- `parse_symbols(file_path)` of backend/database/parser.py: only `.py` and
`.pyi` extensions are parsed; a file that cannot be opened (tree `none`)
yields `[]`; otherwise the query's captures over the parsed tree are
collected. -/
def parse_symbols (ext : String) (tree : Option TSNode) : List SymbolTuple :=
  if ext = ".py" ∨ ext = ".pyi" then
    match tree with
    | some root => tsCollect root
    | none => []
  else []

mutual
/-- Number of function/class definition nodes in a tree-sitter tree. -/
def countTSDefs : TSNode → Nat
  | .funcDef _ _ _ b => 1 + countTSDefsL b
  | .classDef _ _ _ b => 1 + countTSDefsL b
  | .decoratedFunc _ _ _ _ _ b => 1 + countTSDefsL b
  | .decoratedClass _ _ _ _ _ b => 1 + countTSDefsL b
  | .other b => countTSDefsL b
/-- `countTSDefs` over a forest. -/
def countTSDefsL : List TSNode → Nat
  | [] => 0
  | c :: cs => countTSDefs c + countTSDefsL cs
end

mutual
/-- Number of decorated definition nodes in a tree-sitter tree. -/
def countTSDecorated : TSNode → Nat
  | .funcDef _ _ _ b => countTSDecoratedL b
  | .classDef _ _ _ b => countTSDecoratedL b
  | .decoratedFunc _ _ _ _ _ b => 1 + countTSDecoratedL b
  | .decoratedClass _ _ _ _ _ b => 1 + countTSDecoratedL b
  | .other b => countTSDecoratedL b
/-- `countTSDecorated` over a forest. -/
def countTSDecoratedL : List TSNode → Nat
  | [] => 0
  | c :: cs => countTSDecorated c + countTSDecoratedL cs
end

mutual
/-- Well-formedness tree-sitter guarantees for a tree parsed from a file of
`numLines` lines: node spans are ordered and end inside the file, and a
decorated definition starts at its first decorator's row, before the inner
definition's row. -/
def wfTS (numLines : Nat) : TSNode → Bool
  | .funcDef _ s e b => decide (s ≤ e ∧ e + 1 ≤ numLines) && wfTSL numLines b
  | .classDef _ s e b => decide (s ≤ e ∧ e + 1 ≤ numLines) && wfTSL numLines b
  | .decoratedFunc fr _ _ s e b =>
      decide (fr ≤ s ∧ s ≤ e ∧ e + 1 ≤ numLines) && wfTSL numLines b
  | .decoratedClass fr _ _ s e b =>
      decide (fr ≤ s ∧ s ≤ e ∧ e + 1 ≤ numLines) && wfTSL numLines b
  | .other b => wfTSL numLines b
/-- `wfTS` over a forest. -/
def wfTSL (numLines : Nat) : List TSNode → Bool
  | [] => true
  | c :: cs => wfTS numLines c && wfTSL numLines cs
end

/-! ## SQLite symbol store (lambda_function.py lines 36-124, index_repo.py)

The three tables: `commits` keyed by `commit_sha` (PRIMARY KEY), `files` with
AUTOINCREMENT `file_id` and UNIQUE `current_path`, and `symbols` appended
without any uniqueness constraint. -/

/-- One row of the `commits` table. -/
structure CommitRow where
  sha : String
  author : String
  email : String
  message : String
  date : String
deriving Repr, DecidableEq

/-- One row of the `files` table. -/
structure FileRow where
  fileId : Nat
  path : String
deriving Repr, DecidableEq

/-- One row of the `symbols` table. -/
structure SymbolRow where
  fileId : Nat
  sha : String
  kind : String
  name : String
  startLine : Nat
  endLine : Nat
deriving Repr, DecidableEq

/-- The store's state: the three tables plus the AUTOINCREMENT counter of
`files.file_id`. -/
structure LineageDB where
  commits : List CommitRow
  files : List FileRow
  nextFileId : Nat
  symbols : List SymbolRow
deriving Repr

/-- `insert_commit`: `INSERT OR IGNORE INTO commits …` — a row whose
`commit_sha` is already present is ignored, otherwise the row is appended
(lambda_function.py lines 71-76, index_repo.py lines 41-55). -/
def insert_commit (db : LineageDB) (c : CommitRow) : LineageDB :=
  if db.commits.any (fun r => decide (r.sha = c.sha)) then db
  else { db with commits := db.commits ++ [c] }

/-- `insert_file`: `INSERT OR IGNORE INTO files (current_path) VALUES (?)`,
then `SELECT file_id FROM files WHERE current_path = ?` — the path row is
created at most once, and the (first) matching row's id is returned.
`fetchone()[0]` would raise were no row found, hence the `Option`
(lambda_function.py lines 78-82, index_repo.py lines 58-68). -/
def insert_file (db : LineageDB) (path : String) : LineageDB × Option Nat :=
  let db' :=
    if db.files.any (fun f => decide (f.path = path)) then db
    else { db with files := db.files ++ [⟨db.nextFileId, path⟩],
                   nextFileId := db.nextFileId + 1 }
  (db', (db'.files.find? (fun f => decide (f.path = path))).map (·.fileId))

/-- `insert_symbol`: unconditional `INSERT INTO symbols …` append
(lambda_function.py lines 84-89). -/
def insert_symbol (db : LineageDB) (s : SymbolRow) : LineageDB :=
  { db with symbols := db.symbols ++ [s] }

/-- Stable insertion sort, modelling SQLite's `ORDER BY` and Python's
`list.sort`: `x` is placed before the first element `y` with `le x y`. -/
def insertLe (le : α → α → Bool) (x : α) : List α → List α
  | [] => [x]
  | y :: ys => if le x y then x :: y :: ys else y :: insertLe le x ys

/-- Sort by repeated `insertLe`. -/
def sortLe (le : α → α → Bool) : List α → List α
  | [] => []
  | x :: xs => insertLe le x (sortLe le xs)

/-- `get_file_statistics`: `SELECT f.current_path, COUNT(CASE WHEN
s.kind='function' …), COUNT(CASE WHEN s.kind='class' …) FROM files f LEFT
JOIN symbols s ON f.file_id = s.file_id GROUP BY f.current_path ORDER BY
(functions + classes) DESC` (lambda_function.py lines 112-124).  Each `files`
row (paths are UNIQUE, so each row is its own group) yields one output row
even when no symbol joins to it — the LEFT JOIN row of NULLs counts as 0. -/
def get_file_statistics (db : LineageDB) : List (String × Nat × Nat) :=
  sortLe (fun a b => decide (b.2.1 + b.2.2 ≤ a.2.1 + a.2.2))
    (db.files.map fun f =>
      (f.path,
       (db.symbols.filter fun s =>
         decide (s.fileId = f.fileId) && decide (s.kind = "function")).length,
       (db.symbols.filter fun s =>
         decide (s.fileId = f.fileId) && decide (s.kind = "class")).length))

/-! ## FAISS vector index (backend/retrieval/faiss_indexer.py)

`IndexFlatL2` stores vectors and `search` returns, for a query vector, the
`top_k` nearest stored vectors by L2 distance in ascending order.  When
`top_k` exceeds the number of stored vectors FAISS fills the remaining result
slots with label `-1` and a sentinel distance.  Coordinates are modelled over
`Int` (squared L2 distance — the square root does not change the ordering). -/

/-- Squared L2 distance between two vectors. -/
def sqDist (a b : List Int) : Int :=
  ((a.zip b).map fun p => (p.1 - p.2) * (p.2 - p.1) * (-1)).sum

/-- The sentinel distance FAISS reports for padded slots (FLT_MAX; any value
larger than every real squared distance plays the part). -/
def faissPadDist : Int := 2 ^ 128

/-- `index.search(query, k)` of an `IndexFlatL2` holding `stored` (in insert
order): the stored positions sorted by ascending distance (ties by position),
truncated to `k` and padded with label `-1` to exactly `k` slots. -/
def faiss_search (stored : List (List Int)) (q : List Int) (k : Nat) :
    List Int × List Int :=
  let scored := stored.enum.map fun p => (sqDist p.2 q, p.1)
  let sorted := sortLe
    (fun a b => decide (a.1 < b.1 ∨ (a.1 = b.1 ∧ a.2 ≤ b.2))) scored
  let top := sorted.take k
  (top.map (fun p => (p.2 : Int)) ++ List.replicate (k - top.length) (-1),
   top.map (fun p => p.1) ++ List.replicate (k - top.length) faissPadDist)

/-- Python list subscription `data[i]`: a negative index counts from the end
(`data[-1]` is the last element); an index out of range raises `IndexError`,
modelled as `none`. -/
def pyGet (data : List α) (i : Int) : Option α :=
  let j := if i < 0 then (data.length : Int) + i else i
  if 0 ≤ j ∧ j < (data.length : Int) then data.get? j.toNat else none

/-- `query_index(name, query_text, top_k)` (faiss_indexer.py lines 37-50):
load the payload list `data` and the index over `stored`, embed the query
(the embedding call is external — the query's vector is a parameter), run the
FAISS search, then `results = [data[i] for i in I[0] if i < len(data)]`.
The comprehension raises if any retained `i` is out of Python range, hence
`Option`; the distances row `D[0]` is returned unfiltered. -/
def query_index (data : List α) (stored : List (List Int)) (queryVec : List Int)
    (top_k : Nat) : Option (List α) × List Int :=
  let r := faiss_search stored queryVec top_k
  (((r.1.filter fun i => decide (i < (data.length : Int))) |>.mapM (pyGet data)),
   r.2)

/-! ## Answer engines (backend/test_query.py, backend/unified_query.py)

The Bedrock completion response is JSON with an optional `content` list of
blocks (each with an optional `text`) and an optional legacy `completion`
string.  A transport-level failure of `invoke_model` is an exception, modelled
as `Except.error`. -/

/-- One block of the response's `content` list. -/
structure ContentBlock where
  text : Option String
deriving Repr, DecidableEq

/-- The parsed completion-service response body. -/
structure ClaudeResp where
  content : Option (List ContentBlock)
  completion : Option String
deriving Repr, DecidableEq

/-- The sentinel `ask_claude` of test_query.py returns when the response
shape is unrecognized. -/
def unableSentinel : String := "⚠️ Unable to extract answer from Claude."

/-- `ask_claude` of test_query.py (lines 96-106): the `invoke_model` call is
not wrapped in try/except, so a transport failure propagates to the caller;
on success, `if "content" in result and len(result["content"]) > 0` return
`result["content"][0].get("text", "")`, `elif "completion" in result` return
it, else return the sentinel. -/
def TestQuery.ask_claude (resp : Except String ClaudeResp) : Except String String :=
  match resp with
  | .error e => .error e
  | .ok r =>
    .ok (match r.content with
         | some (b :: _) => b.text.getD ""
         | _ =>
           match r.completion with
           | some c => c
           | none => unableSentinel)

/-- `ask_claude` of unified_query.py (lines 81-95): the whole call and
extraction sit inside one `try`, and `except Exception` returns the string
"Error generating response." — both a transport failure and a `KeyError`/
`IndexError` from `response_body['content'][0]['text'].strip()` end there. -/
def UnifiedQuery.ask_claude (resp : Except String ClaudeResp) : String :=
  match resp with
  | .error _ => "Error generating response."
  | .ok r =>
    match r.content with
    | some (b :: _) =>
      match b.text with
      | some t => t.trim
      | none => "Error generating response."
    | _ => "Error generating response."

/-- A response shape neither extractor recognizes: no non-empty `content`
list and no `completion` field. -/
def unrecognizedShape (r : ClaudeResp) : Bool :=
  (match r.content with
   | some (_ :: _) => false
   | _ => true) && r.completion.isNone

/-! ## Embedding client (backend/utils.py) -/

/-- Minimal JSON value model for request bodies. -/
inductive JsonVal where
  | str (s : String)
  | obj (fields : List (String × JsonVal))
deriving Repr

/-- The body `create_embedding` passes to `invoke_model`:
`json.dumps({"inputText": text})` — the text goes in as given, no truncation
(utils.py lines 12-19). -/
def create_embedding_request (text : String) : JsonVal :=
  .obj [("inputText", .str text)]

/-- The `inputText` field of a request body, as the embedding service reads
it. -/
def requestInputText : JsonVal → Option String
  | .obj fields =>
    match fields.lookup "inputText" with
    | some (.str s) => some s
    | _ => none
  | .str _ => none

/-! ## Fused OpenSearch k-NN search (backend/test_query.py `search_all`) -/

/-- One OpenSearch hit: its relevance score and its source payload
(opaque here). -/
structure OSHit where
  score : Int
  source : String
deriving Repr, DecidableEq

/-- An OpenSearch k-NN response: its list of hits. -/
structure OSResp where
  hits : List OSHit
deriving Repr, DecidableEq

/-- `search_all(query, top_k)` of test_query.py (lines 23-61): the two k-NN
searches (commits, then PRs) run inside one `try`; if either raises, the
`except` prints and returns `[]`.  On success the hits are labelled
`"commit"`/`"pr"`, pooled, and sorted by `_score` descending (`list.sort`
with `reverse=True`, a stable sort). -/
def search_all (resCommits resPrs : Except String OSResp) :
    List (String × OSHit) :=
  match resCommits, resPrs with
  | .ok rc, .ok rp =>
    sortLe (fun a b => decide (b.2.score ≤ a.2.score))
      (rc.hits.map (fun h => ("commit", h)) ++ rp.hits.map (fun h => ("pr", h)))
  | _, _ => []

/-! ## Concrete fixtures used by witnesses and counterexamples -/

/-- An 8001-character text (longer than the 8000-character bound the spec
names for the embedding request). -/
def longText : String := String.mk (List.replicate 8001 'a')

/-- A small well-formed module: a top-level function, and a class holding a
nested method — `def f` lines 1-3, `class C` lines 4-6, `def m` lines 5-6. -/
def demoMod : List PyStmt :=
  [PyStmt.funcDef "f" 1 (some 3) [] [],
   PyStmt.classDef "C" 4 (some 6) [] [PyStmt.funcDef "m" 5 (some 6) [] []]]

/-- A CPython parser behaviour: the source `"def f(:"` is malformed
(SyntaxError → `none`); everything else parses to `demoMod`. -/
def demoParse : String → Option (List PyStmt) := fun s =>
  if s = "def f(:" then none else some demoMod

/-- A tree-sitter module: a plain function on rows 0-2 and a function with
two stacked decorators (rows 3 and 4) whose `def` spans rows 5-7. -/
def demoTS : TSNode :=
  TSNode.other [TSNode.funcDef "g" 0 2 [],
                TSNode.decoratedFunc 3 [4] "h" 5 7 []]

/-- A tree-sitter module holding exactly one function definition, decorated:
decorator on row 0, `def f` on row 1. -/
def dupTS : TSNode := TSNode.decoratedFunc 0 [] "f" 1 1 []

/-- A store holding two files, one with a single function symbol and one with
no symbols at all. -/
def statsDB : LineageDB :=
  ⟨[], [⟨0, "a.py"⟩, ⟨1, "b.py"⟩], 2, [⟨0, "sha1", "function", "f", 1, 3⟩]⟩

/-- First `insert_commit` call's row. -/
def commitA : CommitRow := ⟨"abc123", "alice", "alice@x", "first message", "2024-01-01"⟩

/-- Second `insert_commit` call's row: same hash, every other field different. -/
def commitB : CommitRow := ⟨"abc123", "bob", "bob@x", "second message", "2024-02-02"⟩

/-- The line of the first decorator of a definition node, when decorated
(CPython exposes it as `node.decorator_list[0].lineno`). -/
def firstDecoratorLine : PyStmt → Option Nat
  | .funcDef _ _ _ (d :: _) _ => some d
  | .classDef _ _ _ (d :: _) _ => some d
  | _ => none

/-! # Theorems

General lemmas first, then one theorem per claim (with its witness or
counterexample). -/

theorem preS_eq (t : PyStmt) : preS t = t :: preL t.children := by
  cases t <;> rfl

theorem preL_append (a b : List PyStmt) : preL (a ++ b) = preL a ++ preL b := by
  induction a with
  | nil => rfl
  | cons s ss ih => simp [preL, ih]

/-- The breadth-first walk is a permutation of the pre-order listing: each
node of the tree is yielded exactly once. -/
theorem walkBFS_perm (l : List PyStmt) : (walkBFS l).Perm (preL l) := by
  match l with
  | [] => rw [walkBFS_nil]; exact List.Perm.refl _
  | t :: ts =>
    have ih := walkBFS_perm (ts ++ t.children)
    rw [walkBFS_cons, preL, preS_eq]
    refine (ih.cons t).trans ?_
    rw [preL_append]
    exact (List.perm_append_comm).cons t
termination_by sizeL l
decreasing_by
  exact sizeL_step _ _

theorem wfL_append (n : Nat) (a b : List PyStmt) :
    wfL n (a ++ b) = (wfL n a && wfL n b) := by
  induction a with
  | nil => simp [wfL]
  | cons s ss ih => simp [wfL, ih, Bool.and_assoc]

theorem wfS_children (n : Nat) (t : PyStmt) (h : wfS n t = true) :
    wfL n t.children = true := by
  cases t with
  | funcDef nm l e d b =>
    simp [wfS] at h; simp [PyStmt.children, h.2]
  | classDef nm l e d b =>
    simp [wfS] at h; simp [PyStmt.children, h.2]
  | other b =>
    simp [wfS] at h; simp [PyStmt.children, h]

/-- Every node the breadth-first walk yields from a well-formed forest is
well-formed. -/
theorem wf_walkBFS (n : Nat) (l : List PyStmt) (h : wfL n l = true) :
    ∀ s ∈ walkBFS l, wfS n s = true := by
  match l with
  | [] => rw [walkBFS_nil]; intro s hs; cases hs
  | t :: ts =>
    intro s hs
    rw [walkBFS_cons] at hs
    simp [wfL] at h
    rcases List.mem_cons.mp hs with rfl | hs'
    · exact h.1
    · refine wf_walkBFS n (ts ++ t.children) ?_ s hs'
      rw [wfL_append]
      simp [h.2, wfS_children n t h.1]
termination_by sizeL l
decreasing_by
  exact sizeL_step _ _

/-- Bounds of the records the ast-based extractor yields from a well-formed
tree. -/
theorem boundsOK_parse (P : String → Option (List PyStmt)) (src : String)
    (body : List PyStmt) (numLines : Nat) (hp : P src = some body)
    (hwf : wfL numLines body = true) :
    boundsOK numLines (parse_python_file P src) = true := by
  simp only [parse_python_file, hp]
  rw [boundsOK, List.all_eq_true]
  intro r hr
  obtain ⟨s, hs, hts⟩ := List.mem_filterMap.mp hr
  have hws := wf_walkBFS numLines body hwf s hs
  cases s with
  | funcDef nm l e d b =>
    simp [toSymbolTuple] at hts
    simp [wfS] at hws
    rw [← hts]
    simp
    omega
  | classDef nm l e d b =>
    simp [toSymbolTuple] at hts
    simp [wfS] at hws
    rw [← hts]
    simp
    omega
  | other b =>
    simp [toSymbolTuple] at hts

theorem perm_insertLe (le : α → α → Bool) (x : α) (l : List α) :
    (insertLe le x l).Perm (x :: l) := by
  induction l with
  | nil => exact List.Perm.refl _
  | cons y ys ih =>
    cases h : le x y
    · simp only [insertLe, h, Bool.false_eq_true, if_false]
      exact (ih.cons y).trans (List.Perm.swap x y ys)
    · simp only [insertLe, h, if_true]
      exact List.Perm.refl _

theorem perm_sortLe (le : α → α → Bool) (l : List α) : (sortLe le l).Perm l := by
  induction l with
  | nil => exact List.Perm.refl _
  | cons x xs ih =>
    exact (perm_insertLe le x (sortLe le xs)).trans (ih.cons x)

theorem pairwise_insertLe (le : α → α → Bool)
    (htrans : ∀ a b c, le a b = true → le b c = true → le a c = true)
    (htot : ∀ a b, le a b = true ∨ le b a = true)
    (x : α) (l : List α) (h : l.Pairwise (fun a b => le a b = true)) :
    (insertLe le x l).Pairwise (fun a b => le a b = true) := by
  induction l with
  | nil => simp [insertLe]
  | cons y ys ih =>
    rcases List.pairwise_cons.mp h with ⟨hy, hys⟩
    cases hxy : le x y
    · simp only [insertLe, hxy, Bool.false_eq_true, if_false]
      refine List.pairwise_cons.mpr ⟨?_, ih hys⟩
      intro z hz
      rcases List.mem_cons.mp ((perm_insertLe le x ys).mem_iff.mp hz) with rfl | hz'
      · rcases htot z y with h1 | h1
        · rw [hxy] at h1; cases h1
        · exact h1
      · exact hy z hz'
    · simp only [insertLe, hxy, if_true]
      refine List.pairwise_cons.mpr ⟨?_, h⟩
      intro z hz
      rcases List.mem_cons.mp hz with rfl | hz'
      · exact hxy
      · exact htrans x y z hxy (hy z hz')

theorem pairwise_sortLe (le : α → α → Bool)
    (htrans : ∀ a b c, le a b = true → le b c = true → le a c = true)
    (htot : ∀ a b, le a b = true ∨ le b a = true) (l : List α) :
    (sortLe le l).Pairwise (fun a b => le a b = true) := by
  induction l with
  | nil => simp [sortLe]
  | cons x xs ih => exact pairwise_insertLe le htrans htot x _ ih

mutual
/-- The tree-sitter extractor yields one record per definition node, plus one
more per decorated definition node (the plain and the decorated query
patterns both capture it). -/
theorem tsCollect_length : ∀ t : TSNode,
    (tsCollect t).length = countTSDefs t + countTSDecorated t
  | .funcDef n s e b => by
    simp [tsCollect, countTSDefs, countTSDecorated, tsCollectList_length b]
    omega
  | .classDef n s e b => by
    simp [tsCollect, countTSDefs, countTSDecorated, tsCollectList_length b]
    omega
  | .decoratedFunc fr mr n s e b => by
    simp [tsCollect, countTSDefs, countTSDecorated, tsCollectList_length b]
    omega
  | .decoratedClass fr mr n s e b => by
    simp [tsCollect, countTSDefs, countTSDecorated, tsCollectList_length b]
    omega
  | .other b => by
    simp [tsCollect, countTSDefs, countTSDecorated, tsCollectList_length b]
/-- `tsCollect_length` over a forest. -/
theorem tsCollectList_length : ∀ l : List TSNode,
    (tsCollectList l).length = countTSDefsL l + countTSDecoratedL l
  | [] => by simp [tsCollectList, countTSDefsL, countTSDecoratedL]
  | c :: cs => by
    simp [tsCollectList, countTSDefsL, countTSDecoratedL,
      tsCollect_length c, tsCollectList_length cs]
    omega
end

mutual
/-- Bounds of the records the tree-sitter extractor yields from a well-formed
tree. -/
theorem tsCollect_bounds : ∀ (n : Nat) (t : TSNode), wfTS n t = true →
    boundsOK n (tsCollect t) = true
  | n, .funcDef nm s e b, h => by
    simp [wfTS] at h
    simp [tsCollect, boundsOK] at *
    refine ⟨by omega, ?_⟩
    have := tsCollectList_bounds n b h.2
    simpa [boundsOK] using this
  | n, .classDef nm s e b, h => by
    simp [wfTS] at h
    simp [tsCollect, boundsOK] at *
    refine ⟨by omega, ?_⟩
    have := tsCollectList_bounds n b h.2
    simpa [boundsOK] using this
  | n, .decoratedFunc fr mr nm s e b, h => by
    simp [wfTS] at h
    simp [tsCollect, boundsOK] at *
    refine ⟨by omega, ?_⟩
    have := tsCollectList_bounds n b h.2
    simpa [boundsOK] using this
  | n, .decoratedClass fr mr nm s e b, h => by
    simp [wfTS] at h
    simp [tsCollect, boundsOK] at *
    refine ⟨by omega, ?_⟩
    have := tsCollectList_bounds n b h.2
    simpa [boundsOK] using this
  | n, .other b, h => by
    simp [wfTS] at h
    simp [tsCollect]
    exact tsCollectList_bounds n b h
/-- `tsCollect_bounds` over a forest. -/
theorem tsCollectList_bounds : ∀ (n : Nat) (l : List TSNode), wfTSL n l = true →
    boundsOK n (tsCollectList l) = true
  | n, [], _ => by simp [tsCollectList, boundsOK]
  | n, c :: cs, h => by
    simp [wfTSL] at h
    simp [tsCollectList, boundsOK, List.all_append] at *
    exact ⟨by simpa [boundsOK] using tsCollect_bounds n c h.1,
           by simpa [boundsOK] using tsCollectList_bounds n cs h.2⟩
end

/-- C1 (amended): for the ast-module-based extractors
(`parse_python_with_ast` of code_parser.py, `parse_python_file` of
lambda_function.py), the extracted sequence holds each function/class
definition of a well-formed tree exactly once (it is a permutation of the
one-record-per-definition pre-order listing), and every record satisfies
`1 ≤ startLine ≤ endLine ≤ numLines`.  The tree-sitter-based `parse_symbols`
also keeps every record within bounds, but returns each definition once
PLUS one extra duplicate per decorated definition. -/
theorem claim_C1_amended
    (P : String → Option (List PyStmt)) (src : String) (body : List PyStmt)
    (numLines : Nat) (t : TSNode) (nts : Nat)
    (hp : P src = some body) (hwf : wfL numLines body = true)
    (hts : wfTS nts t = true) :
    (parse_python_file P src).Perm ((preL body).filterMap toSymbolTuple)
    ∧ boundsOK numLines (parse_python_file P src) = true
    ∧ (tsCollect t).length = countTSDefs t + countTSDecorated t
    ∧ boundsOK nts (tsCollect t) = true := by
  refine ⟨?_, boundsOK_parse P src body numLines hp hwf,
         tsCollect_length t, tsCollect_bounds nts t hts⟩
  simp only [parse_python_file, hp]
  exact (walkBFS_perm body).filterMap toSymbolTuple

/-- C1 counterexample: a file holding exactly one definition — a decorated
function (`@d` on line 1, `def f` on line 2) — is extracted by the
tree-sitter-based `parse_symbols` as TWO identical records: the plain
`(function_definition …)` query pattern and the decorated one both capture
it.  So not every definition appears exactly once. -/
theorem claim_C1_counterexample :
    parse_symbols ".py" (some dupTS)
      = [⟨"function", "f", 1, 2⟩, ⟨"function", "f", 1, 2⟩]
    ∧ countTSDefs dupTS = 1 := ⟨rfl, rfl⟩

/-- C1 witness: the amended theorem at a concrete module (a function, and a
class with a nested method, in a 6-line file) and a concrete tree-sitter
tree (a plain function and a doubly-decorated one, in an 8-line file). -/
theorem claim_C1_witness :
    (parse_python_file demoParse "a.py source").Perm
        ((preL demoMod).filterMap toSymbolTuple)
    ∧ boundsOK 6 (parse_python_file demoParse "a.py source") = true
    ∧ (tsCollect demoTS).length = countTSDefs demoTS + countTSDecorated demoTS
    ∧ boundsOK 8 (tsCollect demoTS) = true :=
  claim_C1_amended demoParse "a.py source" demoMod 6 demoTS 8 rfl rfl rfl

/-- C2 counterexample: a function wrapped by two stacked decorators on lines
1 and 2, with the `def` keyword on line 3: the ast-module-based extractor
reports start line 3 (`node.lineno`, the `def` keyword's line), not the
first decorator's line 1. -/
theorem claim_C2_counterexample :
    parse_python_file (fun _ => some [PyStmt.funcDef "f" 3 (some 3) [1, 2] []]) "src"
      = [⟨"function", "f", 3, 3⟩]
    ∧ firstDecoratorLine (PyStmt.funcDef "f" 3 (some 3) [1, 2] []) = some 1
    ∧ (3 : Nat) ≠ 1 := by
  refine ⟨?_, rfl, by decide⟩
  simp [parse_python_file, walkBFS_cons, walkBFS_nil, PyStmt.children, toSymbolTuple]

/-- C2 (amended): the tree-sitter-based extractor (`span_node_for_identifier`
of database/parser.py) reports a decorated definition's span from the first
decorator's line — both records it emits for the definition start there —
while the ast-module-based extractors report the `def`/`class` keyword's
line (`node.lineno`), whatever the decorator lines are. -/
theorem claim_C2_amended (fr : Nat) (mr : List Nat) (n : String) (s e : Nat)
    (b : List TSNode) (l : Nat) (eo : Option Nat) (dl : List Nat) (src : String) :
    (tsCollect (TSNode.decoratedFunc fr mr n s e b)).take 2
      = [⟨"function", n, fr + 1, e + 1⟩, ⟨"function", n, fr + 1, e + 1⟩]
    ∧ parse_python_file (fun _ => some [PyStmt.funcDef n l eo dl []]) src
      = [⟨"function", n, l, eo.getD l⟩] := by
  constructor
  · simp [tsCollect]
  · simp [parse_python_file, walkBFS_cons, walkBFS_nil, PyStmt.children, toSymbolTuple]

/-- C2 witness: a function with two stacked decorators (tree-sitter rows 3
and 4, definition rows 5-7) reports 1-based start line 4 — the first
decorator's line — in both its tree-sitter records, while the ast-based
extractor on the matching tree reports the `def` line 5. -/
theorem claim_C2_witness :
    (tsCollect (TSNode.decoratedFunc 3 [4] "h" 5 7 [])).take 2
      = [⟨"function", "h", 4, 8⟩, ⟨"function", "h", 4, 8⟩]
    ∧ parse_python_file (fun _ => some [PyStmt.funcDef "h" 5 (some 7) [4, 5] []]) "w"
      = [⟨"function", "h", 5, 7⟩] :=
  claim_C2_amended 3 [4] "h" 5 7 [] 5 (some 7) [4, 5] "w"

/-- C3: a malformed file (the external parser reports a SyntaxError, `none`)
yields an empty symbol sequence — the extractor returns normally — and the
batch continues: the next files of the run are processed exactly as they
would be without the malformed file. -/
theorem claim_C3 (P : String → Option (List PyStmt)) (bad pbad : String)
    (rest : List (String × String)) (hbad : P bad = none) :
    parse_python_file P bad = []
    ∧ parse_batch P ((pbad, bad) :: rest) = (pbad, []) :: parse_batch P rest := by
  have h1 : parse_python_file P bad = [] := by simp [parse_python_file, hbad]
  exact ⟨h1, by simp [parse_batch, h1]⟩

/-- C3 witness: the malformed source `"def f(:"` yields `[]` and the
following file of the batch is still parsed. -/
theorem claim_C3_witness :
    parse_python_file demoParse "def f(:" = []
    ∧ parse_batch demoParse [("bad.py", "def f(:"), ("good.py", "ok")]
      = ("bad.py", []) :: parse_batch demoParse [("good.py", "ok")] :=
  claim_C3 demoParse "def f(:" "bad.py" [("good.py", "ok")] rfl

/-- C4: `insert_commit` is insert-or-ignore by hash with first-writer-wins:
called twice with the same hash on a store not yet holding it, the table
gains exactly the first call's row; filtering the table by that hash yields
exactly that one row, and the second call's fields are nowhere. -/
theorem claim_C4 (db : LineageDB) (c1 c2 : CommitRow) (hsha : c2.sha = c1.sha)
    (hfresh : db.commits.all (fun r => decide (r.sha ≠ c1.sha)) = true) :
    (insert_commit (insert_commit db c1) c2).commits = db.commits ++ [c1]
    ∧ (insert_commit (insert_commit db c1) c2).commits.filter
        (fun r => decide (r.sha = c1.sha)) = [c1] := by
  have hfresh' : ∀ r ∈ db.commits, ¬ r.sha = c1.sha := by
    intro r hr
    have := List.all_eq_true.mp hfresh r hr
    simpa using this
  have hany1 : db.commits.any (fun r => decide (r.sha = c1.sha)) = false := by
    rw [List.any_eq_false]
    intro r hr
    simpa using hfresh' r hr
  have hdb1 : insert_commit db c1 = { db with commits := db.commits ++ [c1] } := by
    simp [insert_commit, hany1]
  have hany2 : (db.commits ++ [c1]).any (fun r => decide (r.sha = c2.sha)) = true := by
    rw [List.any_append]
    simp [hsha]
  have hdb2 : insert_commit (insert_commit db c1) c2 = insert_commit db c1 := by
    rw [hdb1]
    simp [insert_commit, hany2]
  rw [hdb2, hdb1]
  refine ⟨rfl, ?_⟩
  rw [List.filter_append]
  have h1 : db.commits.filter (fun r => decide (r.sha = c1.sha)) = [] := by
    rw [List.filter_eq_nil_iff]
    intro r hr
    simpa using hfresh' r hr
  simp [h1]

/-- C4 witness: two calls with hash `"abc123"` and different author, email,
message and timestamp fields leave exactly the first call's row. -/
theorem claim_C4_witness :
    (insert_commit (insert_commit ⟨[], [], 0, []⟩ commitA) commitB).commits
      = [] ++ [commitA]
    ∧ (insert_commit (insert_commit ⟨[], [], 0, []⟩ commitA) commitB).commits.filter
        (fun r => decide (r.sha = commitA.sha)) = [commitA] :=
  claim_C4 ⟨[], [], 0, []⟩ commitA commitB rfl rfl

/-- C5: `insert_file` is insert-or-ignore by path with a stable identity: a
second call with the same path returns exactly the first call's result — the
same store (no second row) and the same fileId — and the returned fileId is
always present (the SELECT after the INSERT OR IGNORE finds a row). -/
theorem claim_C5 (db : LineageDB) (path : String) :
    insert_file (insert_file db path).1 path = insert_file db path
    ∧ ((insert_file db path).2).isSome = true := by
  cases hany : db.files.any (fun f => decide (f.path = path)) with
  | true =>
    have hdb1 : (insert_file db path).1 = db := by
      simp only [insert_file, hany, if_true]
    constructor
    · rw [hdb1]
    · obtain ⟨f, hf, hpf⟩ := List.any_eq_true.mp hany
      simp only [insert_file, hany, if_true, Option.isSome_map']
      rw [List.find?_isSome]
      exact ⟨f, hf, hpf⟩
  | false =>
    have hnone : db.files.find? (fun f => decide (f.path = path)) = none := by
      rw [List.find?_eq_none]
      exact List.any_eq_false.mp hany
    have hany2 : (db.files ++ [(⟨db.nextFileId, path⟩ : FileRow)]).any
        (fun f => decide (f.path = path)) = true := by
      rw [List.any_append]
      simp
    constructor
    · simp only [insert_file, hany, Bool.false_eq_true, if_false, hany2, if_true]
    · simp only [insert_file, hany, Bool.false_eq_true, if_false, Option.isSome_map']
      rw [List.find?_isSome]
      exact ⟨⟨db.nextFileId, path⟩, by simp, by simp⟩

/-- C5 witness: the theorem at the empty store and path `"a.py"`. -/
theorem claim_C5_witness :
    insert_file (insert_file ⟨[], [], 0, []⟩ "a.py").1 "a.py"
      = insert_file ⟨[], [], 0, []⟩ "a.py"
    ∧ ((insert_file ⟨[], [], 0, []⟩ "a.py").2).isSome = true :=
  claim_C5 ⟨[], [], 0, []⟩ "a.py"

/-- C6: `get_file_statistics` returns one `(path, functionCount, classCount)`
row per stored file row; every file's row carries its own symbol counts —
in particular a file no symbol references appears with counts `(0, 0)`
(LEFT JOIN) — and the result is ordered by `functionCount + classCount`
descending. -/
theorem claim_C6 (db : LineageDB) :
    (get_file_statistics db).length = db.files.length
    ∧ (∀ f ∈ db.files,
        (f.path,
         (db.symbols.filter fun s =>
           decide (s.fileId = f.fileId) && decide (s.kind = "function")).length,
         (db.symbols.filter fun s =>
           decide (s.fileId = f.fileId) && decide (s.kind = "class")).length)
          ∈ get_file_statistics db)
    ∧ (∀ f ∈ db.files, (∀ s ∈ db.symbols, s.fileId ≠ f.fileId) →
        (f.path, 0, 0) ∈ get_file_statistics db)
    ∧ List.Pairwise
        (fun a b => b.2.1 + b.2.2 ≤ a.2.1 + a.2.2) (get_file_statistics db) := by
  have hperm := perm_sortLe
      (fun a b : String × Nat × Nat => decide (b.2.1 + b.2.2 ≤ a.2.1 + a.2.2))
      (db.files.map fun f =>
        (f.path,
         (db.symbols.filter fun s =>
           decide (s.fileId = f.fileId) && decide (s.kind = "function")).length,
         (db.symbols.filter fun s =>
           decide (s.fileId = f.fileId) && decide (s.kind = "class")).length))
  refine ⟨?_, ?_, ?_, ?_⟩
  · simp only [get_file_statistics]
    rw [hperm.length_eq, List.length_map]
  · intro f hf
    simp only [get_file_statistics]
    rw [hperm.mem_iff]
    exact List.mem_map.mpr ⟨f, hf, rfl⟩
  · intro f hf hnone
    have h1 : (db.symbols.filter fun s =>
        decide (s.fileId = f.fileId) && decide (s.kind = "function")) = [] := by
      rw [List.filter_eq_nil_iff]
      intro s hs
      simp [hnone s hs]
    have h2 : (db.symbols.filter fun s =>
        decide (s.fileId = f.fileId) && decide (s.kind = "class")) = [] := by
      rw [List.filter_eq_nil_iff]
      intro s hs
      simp [hnone s hs]
    simp only [get_file_statistics]
    rw [hperm.mem_iff]
    refine List.mem_map.mpr ⟨f, hf, ?_⟩
    rw [h1, h2]
    rfl
  · simp only [get_file_statistics]
    have hp := pairwise_sortLe
      (fun a b : String × Nat × Nat => decide (b.2.1 + b.2.2 ≤ a.2.1 + a.2.2))
      (by
        intro a b c h1 h2
        simp at h1 h2 ⊢
        omega)
      (by
        intro a b
        rcases le_total (b.2.1 + b.2.2) (a.2.1 + a.2.2) with h | h
        · left; simpa using h
        · right; simpa using h)
      (db.files.map fun f =>
        (f.path,
         (db.symbols.filter fun s =>
           decide (s.fileId = f.fileId) && decide (s.kind = "function")).length,
         (db.symbols.filter fun s =>
           decide (s.fileId = f.fileId) && decide (s.kind = "class")).length))
    exact hp.imp (fun h => by simpa using h)

/-- C6 witness: the theorem at a store with two files — `a.py` with one
function symbol and `b.py` with no symbols at all. -/
theorem claim_C6_witness :
    (get_file_statistics statsDB).length = statsDB.files.length
    ∧ (∀ f ∈ statsDB.files,
        (f.path,
         (statsDB.symbols.filter fun s =>
           decide (s.fileId = f.fileId) && decide (s.kind = "function")).length,
         (statsDB.symbols.filter fun s =>
           decide (s.fileId = f.fileId) && decide (s.kind = "class")).length)
          ∈ get_file_statistics statsDB)
    ∧ (∀ f ∈ statsDB.files, (∀ s ∈ statsDB.symbols, s.fileId ≠ f.fileId) →
        (f.path, 0, 0) ∈ get_file_statistics statsDB)
    ∧ List.Pairwise
        (fun a b => b.2.1 + b.2.2 ≤ a.2.1 + a.2.2) (get_file_statistics statsDB) :=
  claim_C6 statsDB

/-- C7 (evaluation at the failing input): an index holding 2 vectors queried
with `top_k = 3` and a 2-item payload `["a", "b"]`.  FAISS pads the missing
slot with label `-1`; `-1 < len(data)` passes the bound check, and Python's
`data[-1]` is the LAST payload item — so `query_index` returns
`["a", "b", "b"]`: all items plus a duplicate of the last one, contradicting
the claimed "all indexed items, no duplicates". -/
theorem claim_C7_eval :
    (query_index ["a", "b"] [[0], [10]] [0] 3).1 = some ["a", "b", "b"]
    ∧ (faiss_search [[0], [10]] [0] 3).1 = [0, 1, -1] := ⟨rfl, rfl⟩

/-- C8 counterexample: in unified_query.py's `ask_claude` a transport-level
failure of `invoke_model` does NOT propagate — the catch-all `except` turns
it into the same plain string an unrecognized response shape yields, so the
claim's "transport-level failures propagate to the caller as an explicit
error" is false for that answer engine. -/
theorem claim_C8_counterexample :
    UnifiedQuery.ask_claude (Except.error "connection timeout")
      = "Error generating response."
    ∧ UnifiedQuery.ask_claude (Except.ok ⟨none, none⟩)
      = "Error generating response." := ⟨rfl, rfl⟩

/-- C8 (amended): on an unrecognized response shape both answer engines
return a sentinel string without raising (`"⚠️ Unable to extract answer from
Claude."` in test_query.py, `"Error generating response."` in
unified_query.py); a transport-level failure propagates as an explicit error
in test_query.py's `ask_claude` but is caught and mapped to the same
sentinel string in unified_query.py's. -/
theorem claim_C8_amended (r : ClaudeResp) (e : String)
    (hshape : unrecognizedShape r = true) :
    TestQuery.ask_claude (Except.ok r) = Except.ok unableSentinel
    ∧ TestQuery.ask_claude (Except.error e) = Except.error e
    ∧ UnifiedQuery.ask_claude (Except.ok r) = "Error generating response."
    ∧ UnifiedQuery.ask_claude (Except.error e) = "Error generating response." := by
  obtain ⟨co, cm⟩ := r
  cases co with
  | none =>
    cases cm with
    | none => exact ⟨rfl, rfl, rfl, rfl⟩
    | some c => simp [unrecognizedShape] at hshape
  | some l =>
    cases l with
    | nil =>
      cases cm with
      | none => exact ⟨rfl, rfl, rfl, rfl⟩
      | some c => simp [unrecognizedShape] at hshape
    | cons b bs => simp [unrecognizedShape] at hshape

/-- C8 witness: the amended theorem at the empty-content response and the
transport error `"timeout"`. -/
theorem claim_C8_witness :
    TestQuery.ask_claude (Except.ok ⟨some [], none⟩) = Except.ok unableSentinel
    ∧ TestQuery.ask_claude (Except.error "timeout") = Except.error "timeout"
    ∧ UnifiedQuery.ask_claude (Except.ok ⟨some [], none⟩)
      = "Error generating response."
    ∧ UnifiedQuery.ask_claude (Except.error "timeout")
      = "Error generating response." :=
  claim_C8_amended ⟨some [], none⟩ "timeout" rfl

/-- C9 counterexample: an 8001-character text is put in the embedding request
exactly as given — the request's `inputText` field is the full text, longer
than the claimed fixed 8000-character bound. -/
theorem claim_C9_counterexample :
    requestInputText (create_embedding_request longText) = some longText
    ∧ longText.length = 8001
    ∧ ¬ longText.length ≤ 8000 := by
  refine ⟨rfl, ?_, ?_⟩
  · rw [longText, String.length_mk, List.length_replicate]
  · rw [longText, String.length_mk, List.length_replicate]
    omega

/-- C9 (amended): `create_embedding` sends the input text unmodified — the
request body's `inputText` field equals the given text, whatever its length;
there is no truncation anywhere in the embedding client. -/
theorem claim_C9_amended (text : String) :
    requestInputText (create_embedding_request text) = some text := rfl

/-- C9 witness: the amended theorem at a concrete text. -/
theorem claim_C9_witness :
    requestInputText (create_embedding_request "hello") = some "hello" :=
  claim_C9_amended "hello"

/-- C10: if either OpenSearch k-NN call of `search_all` raises, the function
returns `[]` — the same value a successful search with zero hits returns, so
the empty list is the only failure signal and the caller cannot tell
"nothing found" from "the search backend failed". -/
theorem claim_C10 (e : String) (rc rp : Except String OSResp) :
    search_all (Except.error e) rp = []
    ∧ search_all rc (Except.error e) = []
    ∧ search_all (Except.ok ⟨[]⟩) (Except.ok ⟨[]⟩) = [] := by
  refine ⟨?_, ?_, rfl⟩
  · cases rp <;> rfl
  · cases rc <;> rfl

/-- C10 witness: the theorem at a concrete error and empty successes. -/
theorem claim_C10_witness :
    search_all (Except.error "boom") (Except.ok ⟨[]⟩) = []
    ∧ search_all (Except.ok ⟨[]⟩) (Except.error "boom") = []
    ∧ search_all (Except.ok ⟨[]⟩) (Except.ok ⟨[]⟩) = [] :=
  claim_C10 "boom" (Except.ok ⟨[]⟩) (Except.ok ⟨[]⟩)
